import Mathlib

/-!
Verification development for the silver-price movement analysis scripts.

This file gives a shallow embedding of the core pipeline of
`analyze_silver_prices_v2.py` (`process_data`, `rank_movements`,
`calculate_statistics`, and the report assembly of `save_results` / `main`),
together with the sigma annotation of `analyze_silver_prices_REAL.py`
(`calculate_sigma` and the sigma loops of its `save_results`).

Modelling conventions:
  * Python floats are modelled as rationals (exact arithmetic).
  * A Python float division by zero raises `ZeroDivisionError`; `data[-1]`
    on an empty list raises `IndexError`.  Both are modelled as explicit
    error values of an `Except` result, since neither is caught by the
    source's `except (ValueError, KeyError)` clause.
  * Row-field coercions (`float(row['Close'])` and friends) either produce
    a typed value or raise `ValueError`/`KeyError`; a raw row records the
    outcome of each coercion.
-/

namespace Silver

/-- Uncaught Python exceptions that `process_data` and `calculate_sigma`
can raise: a float division by zero, and an index into an empty list. -/
inductive PyErr where
  | zeroDivisionError
  | indexError
  deriving DecidableEq, Repr

/-- One raw CSV row as consumed by `process_data`.  Each field records the
outcome of the corresponding coercion in the source's `try` block
(`row['Date']`, `float(row['Close'])`, the `Adj Close` fallback expression,
and the volume expression): `none` means that coercion raises `ValueError`
or `KeyError`, which the source handles by skipping the row. -/
structure RawRow where
  date : Option String
  close : Option ℚ
  adjClose : Option ℚ
  volume : Option ℤ
  deriving DecidableEq, Repr, Inhabited

/-- True when every coercion in the `try` block succeeds, i.e. the row
is accepted. -/
def RawRow.validb (r : RawRow) : Bool :=
  r.date.isSome && r.close.isSome && r.adjClose.isSome && r.volume.isSome

/-- The coerced close of a row (`float(row['Close'])`); `0` as a formal
default for rows whose coercion fails. -/
def RawRow.closeQ (r : RawRow) : ℚ := r.close.getD 0

/-- The coerced date of a row (`row['Date']`). -/
def RawRow.dateS (r : RawRow) : String := r.date.getD ""

/-- One processed record, as appended to the `data` list in
`process_data` (the per-day dict with keys `date`, `close`, `adj_close`,
`volume`, `daily_change`, `daily_change_pct`). -/
structure DayRec where
  date : String
  close : ℚ
  adj_close : ℚ
  volume : ℤ
  daily_change : Option ℚ
  daily_change_pct : Option ℚ
  deriving DecidableEq, Repr, Inhabited

/-- One iteration of the `for i, row in enumerate(rows)` loop of
`process_data` (v2, lines 59 to 84).  The coercions run first; on
`ValueError` or `KeyError` the row is skipped (`continue`).  For `i > 0`
the source reads `data[-1]['close']`: on an empty `data` this raises an
uncaught `IndexError`, and dividing by a zero previous close raises an
uncaught `ZeroDivisionError`. -/
def processStep (i : Nat) (row : RawRow) (data : List DayRec) :
    Except PyErr (List DayRec) :=
  match row.date, row.close, row.adjClose, row.volume with
  | some date, some close, some adj, some vol =>
    if i > 0 then
      match data.getLast? with
      | none => .error .indexError
      | some prev =>
        if prev.close = 0 then .error .zeroDivisionError
        else
          let dc := close - prev.close
          .ok (data ++ [{ date := date, close := close, adj_close := adj,
                          volume := vol, daily_change := some dc,
                          daily_change_pct := some (dc / prev.close * 100) }])
    else
      .ok (data ++ [{ date := date, close := close, adj_close := adj,
                      volume := vol, daily_change := none,
                      daily_change_pct := none }])
  | _, _, _, _ => .ok data

/-- The loop of `process_data`, threading the row index and the
accumulated `data` list. -/
def processGo : List RawRow → Nat → List DayRec → Except PyErr (List DayRec)
  | [], _, data => .ok data
  | row :: rest, i, data => do
    let data' ← processStep i row data
    processGo rest (i + 1) data'

/-- `process_data` (v2, lines 53 to 90): run the loop from index `0` with
an empty accumulator, then remove the first entry (`data = data[1:]`,
guarded by `if data:`; `List.tail` of `[]` is `[]`, so the guard is
absorbed). -/
def process_data (rows : List RawRow) : Except PyErr (List DayRec) := do
  let data ← processGo rows 0 []
  pure data.tail

/-- The sort key of `rank_movements`:
`x['daily_change_pct'] if x['daily_change_pct'] is not None else 0`. -/
def rankKey (d : DayRec) : ℚ := d.daily_change_pct.getD 0

/-- `sorted(data, key=..., reverse=True)` (v2, line 97): a stable sort
putting the largest key first.  `List.mergeSort` with this comparison is
stable and sorts by `rankKey` descending, keeping elements with equal keys
in their input order — exactly CPython's `sorted` with `reverse=True`,
which is likewise stable. -/
def sortByPctDesc (data : List DayRec) : List DayRec :=
  data.mergeSort (fun a b => decide (rankKey b ≤ rankKey a))

/-- Python's `lst[-n:]` for a nonnegative `n`: for `n = 0` the slice is
`lst[0:]`, the whole list; otherwise it is the last `min n (length lst)`
elements. -/
def sliceLast (l : List α) (n : Nat) : List α :=
  if n = 0 then l else l.drop (l.length - n)

/-- `rank_movements` (v2, lines 92 to 102): sort by percent change
descending, take the first `top_n` as `top_gains` and the reversed last
`top_n` slice as `top_losses`. -/
def rank_movements (data : List DayRec) (top_n : Nat) :
    List DayRec × List DayRec :=
  let sorted_data := sortByPctDesc data
  (sorted_data.take top_n, (sliceLast sorted_data top_n).reverse)

/-- The statistics dict built by `calculate_statistics`.  The source
stores `volatility_std = variance ** 0.5`; a square root is irrational in
general, so this model carries `variance` (the square of
`volatility_std`) instead.  The variance is a mean of squares, hence
nonnegative, and `volatility_std = 0` holds iff `variance = 0`, so the
zero test of the sigma computation is preserved exactly. -/
structure Stats where
  max_gain_pct : ℚ
  max_gain_date : String
  max_loss_pct : ℚ
  max_loss_date : String
  avg_daily_change_pct : ℚ
  variance : ℚ
  total_days : Nat
  deriving DecidableEq, Repr

/-- The search `next(d['date'] for d in data if d['daily_change_pct'] == v)`:
the date of the first record whose percent change equals `v`.  Python's
`None == v` is `False` for a float `v`, matching the `some v` pattern. -/
def firstDateWith (data : List DayRec) (v : ℚ) : Option String :=
  (data.find? (fun d => decide (d.daily_change_pct = some v))).map (·.date)

/-- `calculate_statistics` (v2, lines 104 to 133).  The source returns the
empty dict for an empty `changes` list, modelled as `none`; the function
itself raises nothing.  The two `next(...)` searches are bound in the
option monad; they always succeed when `changes` is nonempty because the
extrema are attained (proved separately below). -/
def calculate_statistics (data : List DayRec) : Option Stats :=
  match data.filterMap (·.daily_change_pct) with
  | [] => none
  | c :: cs => do
    let max_gain := cs.foldl max c
    let max_loss := cs.foldl min c
    let n : ℚ := ((c :: cs).length : ℕ)
    let avg_change := (c :: cs).sum / n
    let variance := ((c :: cs).map (fun x => (x - avg_change) ^ 2)).sum / n
    let gd ← firstDateWith data max_gain
    let ld ← firstDateWith data max_loss
    pure { max_gain_pct := max_gain, max_gain_date := gd,
           max_loss_pct := max_loss, max_loss_date := ld,
           avg_daily_change_pct := avg_change, variance := variance,
           total_days := (c :: cs).length }

/-- The timestamp-free content of the `results` dict assembled by
`save_results` (v2, lines 140 to 173).  `analysis_date` is
`datetime.now()` and is excluded, matching the spec's exclusion of the
generation timestamp from equality.  The serialized report formats these
values into strings; that rendering is a pure function of the fields kept
here. -/
structure Report where
  period_start : String
  period_end : String
  total_days : Nat
  top_gains : List DayRec
  top_losses : List DayRec
  statistics : Stats
  deriving DecidableEq, Repr

/-- The `data_period` bounds and report assembly of `save_results`:
`start` is `data[0]['date'] if data else 'N/A'` and `end` is
`data[-1]['date'] if data else 'N/A'`, where `data` is the trimmed
sequence produced by `process_data`, as passed along by `main`. -/
def assembleReport (data : List DayRec) (stats : Stats)
    (tg tl : List DayRec) : Report :=
  { period_start := ((data.head?).map (·.date)).getD "N/A"
    period_end := ((data.getLast?).map (·.date)).getD "N/A"
    total_days := stats.total_days
    top_gains := tg
    top_losses := tl
    statistics := stats }

/-- The ways a run of `main` ends without writing a report. -/
inductive RunErr where
  | noRows
  | noValidData
  | statsKeyError
  | pyErr (e : PyErr)
  deriving DecidableEq, Repr

/-- The pipeline of `main` (v2, lines 245 to 302) minus the I/O: the
fetch guard (`if not rows:`), `process_data` (whose uncaught exceptions
abort the run), the empty-data guard (`if not data:`),
`calculate_statistics` (whose fields `main` reads directly, so the empty
dict would raise `KeyError` at `stats['max_gain_pct']`), `rank_movements`,
and the report assembly of `save_results`.  `main` fixes `top_n = 50`;
it is kept as a parameter here. -/
def runPipeline (rows : List RawRow) (top_n : Nat) : Except RunErr Report :=
  if rows.isEmpty then .error .noRows
  else
    match process_data rows with
    | .error e => .error (.pyErr e)
    | .ok data =>
      if data.isEmpty then .error .noValidData
      else
        match calculate_statistics data with
        | none => .error .statsKeyError
        | some stats =>
          let (tg, tl) := rank_movements data top_n
          .ok (assembleReport data stats tg tl)

/-- `calculate_sigma` of `analyze_silver_prices_REAL.py` (lines 165 to
167): `(value - mean) / std_dev`, raising `ZeroDivisionError` when
`std_dev == 0`, i.e. exactly when the variance is `0`.  The successful
value is `(value - mean) / sqrt variance`, irrational in general, so the
model returns the exact pair of the numerator and the square of the
divisor; every claim about sigma concerns only the zero-divisor case. -/
def calculate_sigma (value mean variance : ℚ) : Except PyErr (ℚ × ℚ) :=
  if variance = 0 then .error .zeroDivisionError
  else .ok (value - mean, variance)

/-- One sigma loop of the REAL `save_results` (lines 177 to 199): each
ranked movement is paired with
`calculate_sigma(d['daily_change_pct'], mean, std_dev)`, and the first
zero-divisor call aborts the run with the uncaught `ZeroDivisionError`.
Ranked movements always carry a set `daily_change_pct` on the runs the
claims quantify over, so the formal `getD 0` default is never exercised
there. -/
def annotate_sigma (movs : List DayRec) (mean variance : ℚ) :
    Except PyErr (List (DayRec × ℚ × ℚ)) :=
  movs.mapM (fun d =>
    (calculate_sigma (d.daily_change_pct.getD 0) mean variance).map
      (fun s => (d, s)))

/-- Both sigma loops of the REAL `save_results`, run before anything is
written: gains first, then losses. -/
def real_sigma_stage (tg tl : List DayRec) (stats : Stats) :
    Except PyErr (List (DayRec × ℚ × ℚ) × List (DayRec × ℚ × ℚ)) := do
  let g ← annotate_sigma tg stats.avg_daily_change_pct stats.variance
  let l ← annotate_sigma tl stats.avg_daily_change_pct stats.variance
  pure (g, l)

/-- The pipeline of the REAL variant's `main`: identical staging to v2
(its `process_data`, `rank_movements` and `calculate_statistics` differ
only by the absent `adj_close` field), followed by the sigma annotation
performed at the top of its `save_results` before any output is written.
A successful run yields the annotated gains, the annotated losses, and
the timestamp-free report content. -/
def realRunPipeline (rows : List RawRow) (top_n : Nat) :
    Except RunErr (List (DayRec × ℚ × ℚ) × List (DayRec × ℚ × ℚ) × Report) :=
  if rows.isEmpty then .error .noRows
  else
    match process_data rows with
    | .error e => .error (.pyErr e)
    | .ok data =>
      if data.isEmpty then .error .noValidData
      else
        match calculate_statistics data with
        | none => .error .statsKeyError
        | some stats =>
          let (tg, tl) := rank_movements data top_n
          match real_sigma_stage tg tl stats with
          | .error e => .error (.pyErr e)
          | .ok (g, l) => .ok (g, l, assembleReport data stats tg tl)

/-! Reference characterization of `process_data` on accepted rows. -/

/-- The record `process_data` appends for a valid row at loop index 0. -/
def mkFirstRec (r : RawRow) : DayRec :=
  { date := r.dateS, close := r.closeQ, adj_close := r.adjClose.getD 0,
    volume := r.volume.getD 0, daily_change := none, daily_change_pct := none }

/-- The record `process_data` appends for a valid row whose previous
accepted close is `prev`. -/
def mkChangeRec (prev : ℚ) (r : RawRow) : DayRec :=
  { date := r.dateS, close := r.closeQ, adj_close := r.adjClose.getD 0,
    volume := r.volume.getD 0,
    daily_change := some (r.closeQ - prev),
    daily_change_pct := some ((r.closeQ - prev) / prev * 100) }

/-- The records produced for a run of accepted rows whose preceding
accepted close is `p`. -/
def chainFrom (p : ℚ) : List RawRow → List DayRec
  | [] => []
  | r :: rs => mkChangeRec p r :: chainFrom r.closeQ rs

theorem RawRow.validb_elim {r : RawRow} (h : r.validb = true) :
    ∃ d c a v, r.date = some d ∧ r.close = some c ∧
      r.adjClose = some a ∧ r.volume = some v := by
  unfold RawRow.validb at h
  simp only [Bool.and_eq_true, Option.isSome_iff_exists] at h
  obtain ⟨⟨⟨⟨d, hd⟩, c, hc⟩, a, ha⟩, v, hv⟩ := h
  exact ⟨d, c, a, v, hd, hc, ha, hv⟩

theorem processStep_zero_valid {r : RawRow} (h : r.validb = true)
    (data : List DayRec) :
    processStep 0 r data = .ok (data ++ [mkFirstRec r]) := by
  obtain ⟨d, c, a, v, hd, hc, ha, hv⟩ := RawRow.validb_elim h
  simp [processStep, hd, hc, ha, hv, mkFirstRec, RawRow.dateS, RawRow.closeQ]

theorem processStep_succ_valid {r : RawRow} (h : r.validb = true)
    {i : Nat} (hi : 0 < i) {data : List DayRec} {last : DayRec}
    (hl : data.getLast? = some last) (hnz : last.close ≠ 0) :
    processStep i r data = .ok (data ++ [mkChangeRec last.close r]) := by
  obtain ⟨d, c, a, v, hd, hc, ha, hv⟩ := RawRow.validb_elim h
  simp [processStep, hd, hc, ha, hv, hi, hl, hnz, mkChangeRec,
    RawRow.dateS, RawRow.closeQ]

theorem processStep_succ_zero {r : RawRow} (h : r.validb = true)
    {i : Nat} (hi : 0 < i) {data : List DayRec} {last : DayRec}
    (hl : data.getLast? = some last) (hz : last.close = 0) :
    processStep i r data = .error .zeroDivisionError := by
  obtain ⟨d, c, a, v, hd, hc, ha, hv⟩ := RawRow.validb_elim h
  simp [processStep, hd, hc, ha, hv, hi, hl, hz]

theorem processGo_cons_ok {r : RawRow} {i : Nat} {data d : List DayRec}
    (h : processStep i r data = .ok d) (rs : List RawRow) :
    processGo (r :: rs) i data = processGo rs (i + 1) d := by
  simp only [processGo, h]
  rfl

theorem processGo_cons_error {r : RawRow} {i : Nat} {data : List DayRec}
    {e : PyErr} (h : processStep i r data = .error e) (rs : List RawRow) :
    processGo (r :: rs) i data = .error e := by
  simp only [processGo, h]
  rfl

theorem processGo_chain (rows : List RawRow) :
    ∀ (i : Nat) (acc : List DayRec) (last : DayRec),
      acc.getLast? = some last → 0 < i →
      (∀ r ∈ rows, r.validb = true) →
      (∀ q ∈ (last.close :: rows.map RawRow.closeQ).dropLast, q ≠ 0) →
      processGo rows i acc = .ok (acc ++ chainFrom last.close rows) := by
  induction rows with
  | nil =>
    intro i acc last _ _ _ _
    simp [processGo, chainFrom]
  | cons r rs ih =>
    intro i acc last hl hi hv hz
    have hrv : r.validb = true := hv r (by simp)
    have hlast_ne : last.close ≠ 0 := by
      apply hz
      simp [List.dropLast_cons₂]
    rw [processGo_cons_ok (processStep_succ_valid hrv hi hl hlast_ne)]
    have hstep : (acc ++ [mkChangeRec last.close r]).getLast? =
        some (mkChangeRec last.close r) := List.getLast?_concat _
    have hclose : (mkChangeRec last.close r).close = r.closeQ := rfl
    have hz' : ∀ q ∈ ((mkChangeRec last.close r).close ::
        rs.map RawRow.closeQ).dropLast, q ≠ 0 := by
      intro q hq
      apply hz
      rw [hclose] at hq
      simpa [List.dropLast_cons₂] using Or.inr hq
    have hrec := ih (i + 1) (acc ++ [mkChangeRec last.close r]) _ hstep
      (Nat.succ_pos i) (fun r' hr' => hv r' (by simp [hr'])) hz'
    rw [hrec, hclose]
    simp [chainFrom]

theorem processGo_zero (rows : List RawRow) :
    ∀ (i : Nat) (acc : List DayRec) (last : DayRec),
      acc.getLast? = some last → 0 < i →
      (∀ r ∈ rows, r.validb = true) →
      (∃ q ∈ (last.close :: rows.map RawRow.closeQ).dropLast, q = 0) →
      processGo rows i acc = .error .zeroDivisionError := by
  induction rows with
  | nil =>
    intro i acc last _ _ _ hex
    obtain ⟨q, hq, _⟩ := hex
    simp at hq
  | cons r rs ih =>
    intro i acc last hl hi hv hex
    have hrv : r.validb = true := hv r (by simp)
    by_cases hl0 : last.close = 0
    · exact processGo_cons_error (processStep_succ_zero hrv hi hl hl0) rs
    · obtain ⟨q, hq, hq0⟩ := hex
      rw [processGo_cons_ok (processStep_succ_valid hrv hi hl hl0)]
      have hstep : (acc ++ [mkChangeRec last.close r]).getLast? =
          some (mkChangeRec last.close r) := List.getLast?_concat _
      have hq' : ∃ q ∈ ((mkChangeRec last.close r).close ::
          rs.map RawRow.closeQ).dropLast, q = 0 := by
        refine ⟨q, ?_, hq0⟩
        rcases (by simpa [List.dropLast_cons₂] using hq) with h | h
        · exact absurd (h ▸ hq0) (by simpa [h] using hl0)
        · simpa [List.dropLast_cons₂] using h
      exact ih (i + 1) (acc ++ [mkChangeRec last.close r]) _ hstep
        (Nat.succ_pos i) (fun r' hr' => hv r' (by simp [hr'])) hq'

theorem process_data_chain (r0 : RawRow) (rest : List RawRow)
    (hv : ∀ r ∈ r0 :: rest, r.validb = true)
    (hz : ∀ q ∈ ((r0 :: rest).map RawRow.closeQ).dropLast, q ≠ 0) :
    process_data (r0 :: rest) = .ok (chainFrom r0.closeQ rest) := by
  have h0 : r0.validb = true := hv r0 (by simp)
  unfold process_data
  rw [processGo_cons_ok (processStep_zero_valid h0 [])]
  have hstep : (([] : List DayRec) ++ [mkFirstRec r0]).getLast? =
      some (mkFirstRec r0) := List.getLast?_concat _
  have hclose : (mkFirstRec r0).close = r0.closeQ := rfl
  have hz' : ∀ q ∈ ((mkFirstRec r0).close ::
      rest.map RawRow.closeQ).dropLast, q ≠ 0 := by
    intro q hq
    apply hz
    rw [hclose] at hq
    simpa using hq
  have hrec := processGo_chain rest (0 + 1) ([] ++ [mkFirstRec r0]) _ hstep
    Nat.one_pos (fun r' hr' => hv r' (by simp [hr'])) hz'
  rw [hrec, hclose]
  rfl

theorem process_data_zero (r0 : RawRow) (rest : List RawRow)
    (hv : ∀ r ∈ r0 :: rest, r.validb = true)
    (hz : ∃ q ∈ ((r0 :: rest).map RawRow.closeQ).dropLast, q = 0) :
    process_data (r0 :: rest) = .error .zeroDivisionError := by
  have h0 : r0.validb = true := hv r0 (by simp)
  unfold process_data
  rw [processGo_cons_ok (processStep_zero_valid h0 [])]
  have hstep : (([] : List DayRec) ++ [mkFirstRec r0]).getLast? =
      some (mkFirstRec r0) := List.getLast?_concat _
  have hclose : (mkFirstRec r0).close = r0.closeQ := rfl
  have hz' : ∃ q ∈ ((mkFirstRec r0).close ::
      rest.map RawRow.closeQ).dropLast, q = 0 := by
    obtain ⟨q, hq, hq0⟩ := hz
    exact ⟨q, by rw [hclose]; simpa using hq, hq0⟩
  have hrec := processGo_zero rest (0 + 1) ([] ++ [mkFirstRec r0]) _ hstep
    Nat.one_pos (fun r' hr' => hv r' (by simp [hr'])) hz'
  rw [hrec]
  rfl

theorem chainFrom_length (p : ℚ) (rows : List RawRow) :
    (chainFrom p rows).length = rows.length := by
  induction rows generalizing p with
  | nil => rfl
  | cons r rs ih => simp [chainFrom, ih]

theorem chainFrom_getD (p : ℚ) (rows : List RawRow) (i : Nat)
    (h : i < rows.length) :
    (chainFrom p rows).getD i default =
      mkChangeRec ((p :: rows.map RawRow.closeQ).getD i 0)
        (rows.getD i default) := by
  induction rows generalizing p i with
  | nil => simp at h
  | cons r rs ih =>
    cases i with
    | zero => simp [chainFrom]
    | succ n =>
      simp only [chainFrom, List.getD_cons_succ, List.map_cons]
      exact ih r.closeQ n (by simpa using h)

theorem chainFrom_map_date (p : ℚ) (rows : List RawRow) :
    (chainFrom p rows).map DayRec.date = rows.map RawRow.dateS := by
  induction rows generalizing p with
  | nil => rfl
  | cons r rs ih => simp [chainFrom, mkChangeRec, ih]

theorem chainFrom_pct_isSome (p : ℚ) (rows : List RawRow) :
    ∀ d ∈ chainFrom p rows, d.daily_change_pct.isSome := by
  induction rows generalizing p with
  | nil => simp [chainFrom]
  | cons r rs ih =>
    intro d hd
    rcases (by simpa [chainFrom] using hd) with h | h
    · simp [h, mkChangeRec]
    · exact ih r.closeQ d h

theorem getD_map_closeQ (rows : List RawRow) (i : Nat) (h : i < rows.length) :
    (rows.map RawRow.closeQ).getD i 0 = (rows.getD i default).closeQ := by
  induction rows generalizing i with
  | nil => simp at h
  | cons r rs ih =>
    cases i with
    | zero => rfl
    | succ n =>
      simp only [List.map_cons, List.getD_cons_succ]
      exact ih n (by simpa using h)

theorem getD_mem_dropLast {α : Type _} (l : List α) (d : α) (i : Nat)
    (h : i + 1 < l.length) : l.getD i d ∈ l.dropLast := by
  have hi : i < l.length := by omega
  have h1 : i < l.dropLast.length := by
    simp only [List.length_dropLast]
    omega
  have h2 : l.dropLast[i] = l[i] := List.getElem_dropLast l i h1
  have h3 : l.getD i d = l[i] := by
    simp [List.getD_eq_getElem?_getD, List.getElem?_eq_getElem hi]
  rw [h3, ← h2]
  exact List.getElem_mem h1

/-- Claim C1, amended: for every input sequence of length `L ≥ 2` in which
every row is coercible and every close except possibly the last one is
nonzero, `process_data` succeeds with an output of length `L - 1`, whose
element `i` carries `absolute_change = close[i+1] - close[i]` and
`percent_change = (close[i+1] - close[i]) / close[i] * 100` from the
original sequence, and no output element has an unset change field.  The
nonzero-close hypothesis is forced by `C1_zero_close_counterexample`: a
zero previous close aborts `process_data` with an uncaught
`ZeroDivisionError` instead of producing any output. -/
theorem C1_return_series_correct (rows : List RawRow)
    (h2 : 2 ≤ rows.length)
    (hv : ∀ r ∈ rows, r.validb = true)
    (hz : ∀ q ∈ (rows.map RawRow.closeQ).dropLast, q ≠ 0) :
    ∃ out, process_data rows = .ok out ∧
      out.length = rows.length - 1 ∧
      ∀ i, i < out.length →
        (out.getD i default).daily_change =
          some ((rows.getD (i + 1) default).closeQ -
            (rows.getD i default).closeQ) ∧
        (out.getD i default).daily_change_pct =
          some (((rows.getD (i + 1) default).closeQ -
              (rows.getD i default).closeQ) /
            (rows.getD i default).closeQ * 100) ∧
        (out.getD i default).daily_change ≠ none ∧
        (out.getD i default).daily_change_pct ≠ none := by
  obtain ⟨r0, rest, rfl⟩ : ∃ r0 rest, rows = r0 :: rest := by
    cases rows with
    | nil => simp at h2
    | cons a l => exact ⟨a, l, rfl⟩
  refine ⟨chainFrom r0.closeQ rest, process_data_chain r0 rest hv hz, ?_, ?_⟩
  · rw [chainFrom_length]
    simp
  · intro i hi
    rw [chainFrom_length] at hi
    have hgd := chainFrom_getD r0.closeQ rest i hi
    have e1 : (r0.closeQ :: rest.map RawRow.closeQ).getD i 0 =
        ((r0 :: rest).getD i default).closeQ := by
      have := getD_map_closeQ (r0 :: rest) i
        (by simp only [List.length_cons]; omega)
      simpa using this
    have e2 : rest.getD i default = (r0 :: rest).getD (i + 1) default := rfl
    rw [hgd, e1, e2]
    exact ⟨rfl, rfl, by simp [mkChangeRec], by simp [mkChangeRec]⟩

/-- A length-2, all-coercible input whose first close is `0`. -/
def c1ZeroRows : List RawRow :=
  [{ date := some "2020-01-02", close := some 0, adjClose := some 0,
     volume := some 0 },
   { date := some "2020-01-03", close := some 1, adjClose := some 1,
     volume := some 0 }]

/-- Claim C1 as frozen is false: on `c1ZeroRows` (all rows coercible,
length 2), `process_data` aborts with `ZeroDivisionError` — there is no
output sequence at all, let alone one of length 1 with the stated
fields. -/
theorem C1_zero_close_counterexample :
    (∀ r ∈ c1ZeroRows, r.validb = true) ∧ c1ZeroRows.length = 2 ∧
      process_data c1ZeroRows = .error .zeroDivisionError ∧
      ∀ out : List DayRec, process_data c1ZeroRows ≠ .ok out := by
  have h : process_data c1ZeroRows = .error .zeroDivisionError := by rfl
  refine ⟨by decide, rfl, h, ?_⟩
  intro out hout
  rw [h] at hout
  exact Except.noConfusion hout

/-- A valid three-row input with nonzero closes. -/
def c1Rows : List RawRow :=
  [{ date := some "2020-01-02", close := some 10, adjClose := some 10,
     volume := some 100 },
   { date := some "2020-01-03", close := some 11, adjClose := some 11,
     volume := some 200 },
   { date := some "2020-01-06", close := some (99/10),
     adjClose := some (99/10), volume := some 300 }]

/-- Witness for `C1_return_series_correct` at the concrete input
`c1Rows`. -/
theorem C1_return_series_correct_witness :
    ∃ out, process_data c1Rows = .ok out ∧
      out.length = c1Rows.length - 1 ∧
      ∀ i, i < out.length →
        (out.getD i default).daily_change =
          some ((c1Rows.getD (i + 1) default).closeQ -
            (c1Rows.getD i default).closeQ) ∧
        (out.getD i default).daily_change_pct =
          some (((c1Rows.getD (i + 1) default).closeQ -
              (c1Rows.getD i default).closeQ) /
            (c1Rows.getD i default).closeQ * 100) ∧
        (out.getD i default).daily_change ≠ none ∧
        (out.getD i default).daily_change_pct ≠ none :=
  C1_return_series_correct c1Rows (by decide) (by decide) (by decide)

/-- Claim C8, confirmed: on an all-coercible input containing an
observation whose previous close is `0`, `process_data` aborts with the
distinct explicit condition `ZeroDivisionError` (which the source's
`except (ValueError, KeyError)` does not catch), and it never returns an
output — so no infinite or NaN `percent_change` can propagate into any
report. -/
theorem C8_zero_prev_close_aborts (rows : List RawRow)
    (hv : ∀ r ∈ rows, r.validb = true)
    (hz : ∃ i, i + 1 < rows.length ∧ (rows.getD i default).closeQ = 0) :
    process_data rows = .error .zeroDivisionError ∧
      ∀ out : List DayRec, process_data rows ≠ .ok out := by
  obtain ⟨i, hilt, hi0⟩ := hz
  obtain ⟨r0, rest, rfl⟩ : ∃ r0 rest, rows = r0 :: rest := by
    cases rows with
    | nil => simp at hilt
    | cons a l => exact ⟨a, l, rfl⟩
  have hmem : ∃ q ∈ ((r0 :: rest).map RawRow.closeQ).dropLast, q = 0 := by
    refine ⟨((r0 :: rest).map RawRow.closeQ).getD i 0, ?_, ?_⟩
    · exact getD_mem_dropLast _ 0 i (by simpa using hilt)
    · rw [getD_map_closeQ _ _ (by omega)]
      exact hi0
  have herr := process_data_zero r0 rest hv hmem
  refine ⟨herr, fun out hout => ?_⟩
  rw [herr] at hout
  exact Except.noConfusion hout

/-- A valid input whose middle close is `0`. -/
def c8Rows : List RawRow :=
  [{ date := some "2020-01-02", close := some 5, adjClose := some 5,
     volume := some 10 },
   { date := some "2020-01-03", close := some 0, adjClose := some 0,
     volume := some 20 },
   { date := some "2020-01-06", close := some 7, adjClose := some 7,
     volume := some 30 }]

/-- Witness for `C8_zero_prev_close_aborts` at the concrete input
`c8Rows`. -/
theorem C8_zero_prev_close_aborts_witness :
    process_data c8Rows = .error .zeroDivisionError ∧
      ∀ out : List DayRec, process_data c8Rows ≠ .ok out :=
  C8_zero_prev_close_aborts c8Rows (by decide) ⟨1, by decide, by decide⟩

/-- An input whose first raw row fails coercion and whose second row
parses. -/
def c10Rows : List RawRow :=
  [{ date := some "2020-01-02", close := none, adjClose := some 1,
     volume := some 0 },
   { date := some "2020-01-03", close := some 10, adjClose := some 10,
     volume := some 5 }]

/-- Claim C10, confirmed: on `c10Rows` the first raw row fails coercion
(it is skipped by the `except (ValueError, KeyError)` handler) and the
second row parses; at raw index `1 > 0` the accepted-rows list is still
empty, so `data[-1]['close']` raises `IndexError`, which is not among the
caught exception types — `process_data` aborts and skip-and-continue
recovery is not total. -/
theorem C10_skipped_first_row_index_error :
    (c10Rows.getD 0 default).validb = false ∧
      (c10Rows.getD 1 default).validb = true ∧
      process_data c10Rows = .error .indexError :=
  ⟨rfl, rfl, rfl⟩

/-! Ranking: sortedness, lengths, and stability. -/

/-- Evaluation of `mergeSort` on a two-element list. -/
theorem mergeSort_pair {α : Type _} (a b : α) (le : α → α → Bool) :
    [a, b].mergeSort le = if le a b then [a, b] else [b, a] := by
  rw [List.mergeSort]
  simp [List.splitInTwo, List.splitAt, List.splitAt.go, List.merge]

theorem sortKey_trans : ∀ (a b c : DayRec),
    (fun a b => decide (rankKey b ≤ rankKey a)) a b = true →
    (fun a b => decide (rankKey b ≤ rankKey a)) b c = true →
    (fun a b => decide (rankKey b ≤ rankKey a)) a c = true := by
  intro a b c hab hbc
  simp only [decide_eq_true_eq] at *
  exact le_trans hbc hab

theorem sortKey_total : ∀ (a b : DayRec),
    ((fun a b => decide (rankKey b ≤ rankKey a)) a b ||
      (fun a b => decide (rankKey b ≤ rankKey a)) b a) = true := by
  intro a b
  simp only [Bool.or_eq_true, decide_eq_true_eq]
  exact le_total (rankKey b) (rankKey a)

theorem sortByPctDesc_length (data : List DayRec) :
    (sortByPctDesc data).length = data.length :=
  List.length_mergeSort data

theorem sortByPctDesc_sorted (data : List DayRec) :
    (sortByPctDesc data).Pairwise (fun a b => rankKey b ≤ rankKey a) := by
  have h := List.sorted_mergeSort sortKey_trans sortKey_total data
  exact h.imp (fun hab => of_decide_eq_true hab)

theorem sliceLast_sublist {α : Type _} (l : List α) (n : Nat) :
    List.Sublist (sliceLast l n) l := by
  unfold sliceLast
  split
  · exact List.Sublist.refl l
  · exact List.drop_sublist _ _

/-- Stability of the ranking sort: for every key value `v`, the sorted
sequence contains the records with key `v` in exactly their input order. -/
theorem sortByPctDesc_filter_key (data : List DayRec) (v : ℚ) :
    (sortByPctDesc data).filter (fun d => decide (rankKey d = v)) =
      data.filter (fun d => decide (rankKey d = v)) := by
  unfold sortByPctDesc
  set p : DayRec → Bool := fun d => decide (rankKey d = v) with hp
  have hpw : (data.filter p).Pairwise
      (fun a b => (fun a b => decide (rankKey b ≤ rankKey a)) a b = true) := by
    apply List.pairwise_of_forall_mem_list
    intro a ha b hb
    have hka : rankKey a = v := of_decide_eq_true (List.mem_filter.mp ha).2
    have hkb : rankKey b = v := of_decide_eq_true (List.mem_filter.mp hb).2
    simp [hka, hkb]
  have hsub : List.Sublist (data.filter p)
      (data.mergeSort (fun a b => decide (rankKey b ≤ rankKey a))) :=
    List.sublist_mergeSort sortKey_trans sortKey_total hpw
      (List.filter_sublist data)
  have hidem : (data.filter p).filter p = data.filter p :=
    List.filter_eq_self.mpr (fun a ha => (List.mem_filter.mp ha).2)
  have hsub2 : List.Sublist (data.filter p)
      ((data.mergeSort (fun a b => decide (rankKey b ≤ rankKey a))).filter p) := by
    have h2 := hsub.filter p
    rwa [hidem] at h2
  have hperm := (List.mergeSort_perm data
    (fun a b => decide (rankKey b ≤ rankKey a))).filter p
  exact (hsub2.eq_of_length hperm.length_eq.symm).symm

theorem filter_take_eq {α : Type _} (p : α → Bool) (n : Nat) (l : List α) :
    (l.take n).filter p = (l.filter p).take ((l.take n).filter p).length := by
  induction l generalizing n with
  | nil => simp
  | cons x xs ih =>
    cases n with
    | zero => simp
    | succ m =>
      rw [List.take_succ_cons]
      by_cases hx : p x
      · rw [List.filter_cons_of_pos hx, List.filter_cons_of_pos hx]
        simp only [List.length_cons, List.take_succ_cons]
        rw [← ih m]
      · rw [List.filter_cons_of_neg (by simpa using hx),
          List.filter_cons_of_neg (by simpa using hx)]
        exact ih m

theorem filter_drop_eq {α : Type _} (p : α → Bool) (n : Nat) (l : List α) :
    (l.drop n).filter p =
      (l.filter p).drop ((l.take n).filter p).length := by
  have hsplit : l.filter p = (l.take n).filter p ++ (l.drop n).filter p := by
    rw [← List.filter_append, List.take_append_drop]
  conv_rhs => rw [hsplit]
  rw [List.drop_left]

/-- Claim C2, amended: for every return-observation sequence and every
movement count `N ≥ 1`, `rank_movements` returns `top_gains` sorted by
the percent-change key descending, `top_losses` sorted by that key
ascending (the worst day first, after the reversal), and both of length
`min N L`.  (`rankKey` is the source's sort key; on a return-observation
sequence every `daily_change_pct` is set and the key is the percent
change itself.)  The restriction to `N ≥ 1` is forced by
`C2_topn_zero_counterexample`: Python's `sorted_data[-0:]` is the whole
list, so at `N = 0` `top_losses` has length `L`, not `min 0 L = 0`. -/
theorem C2_rank_movements_sorted (data : List DayRec) (top_n : Nat)
    (_hall : ∀ d ∈ data, d.daily_change_pct.isSome)
    (h1 : 1 ≤ top_n) :
    ((rank_movements data top_n).1).length = min top_n data.length ∧
    ((rank_movements data top_n).2).length = min top_n data.length ∧
    ((rank_movements data top_n).1).Pairwise
      (fun a b => rankKey b ≤ rankKey a) ∧
    ((rank_movements data top_n).2).Pairwise
      (fun a b => rankKey a ≤ rankKey b) := by
  refine ⟨?_, ?_, ?_, ?_⟩
  · simp [rank_movements, sortByPctDesc_length]
  · simp only [rank_movements, List.length_reverse, sliceLast,
      if_neg (by omega : ¬ top_n = 0), List.length_drop,
      sortByPctDesc_length]
    omega
  · exact List.Pairwise.sublist (List.take_sublist _ _)
      (sortByPctDesc_sorted data)
  · simp only [rank_movements]
    rw [List.pairwise_reverse]
    exact List.Pairwise.sublist (sliceLast_sublist _ _)
      (sortByPctDesc_sorted data)

/-- A single return observation. -/
def c2Rec : DayRec :=
  { date := "2020-01-03", close := 9, adj_close := 9, volume := 100,
    daily_change := some (-1), daily_change_pct := some (-10) }

/-- Claim C2 as frozen is false at movement count `N = 0`: on a single
observation, `top_losses = sorted_data[-0:][::-1]` is the whole (one
element) list, of length `1 ≠ min 0 1`. -/
theorem C2_topn_zero_counterexample :
    ((rank_movements [c2Rec] 0).2).length = 1 ∧
      min 0 ([c2Rec].length) = 0 ∧ (1 : Nat) ≠ 0 := by
  refine ⟨?_, rfl, by decide⟩
  simp [rank_movements, sortByPctDesc, sliceLast]

/-- Witness for `C2_rank_movements_sorted` at a concrete input. -/
theorem C2_rank_movements_sorted_witness :
    ((rank_movements [c2Rec] 1).1).length = min 1 ([c2Rec].length) ∧
    ((rank_movements [c2Rec] 1).2).length = min 1 ([c2Rec].length) ∧
    ((rank_movements [c2Rec] 1).1).Pairwise
      (fun a b => rankKey b ≤ rankKey a) ∧
    ((rank_movements [c2Rec] 1).2).Pairwise
      (fun a b => rankKey a ≤ rankKey b) :=
  C2_rank_movements_sorted [c2Rec] 1 (by decide) (by decide)

/-- Claim C6, amended: the ranking sort is stable — for every key value
`v` the sorted sequence lists the records whose key is `v` in exactly
their original chronological order — and therefore, when `N` truncates a
tied group, `top_gains` retains a chronological *initial* segment of the
tied records (earliest tied days), while `top_losses` (built from the
last-`N` slice and then reversed) retains a chronological *final* segment
of the tied records, reversed — the chronologically latest tied days, not
the earliest ones claimed.  The latter correction is forced by
`C6_losses_tie_counterexample`. -/
theorem C6_stable_tie_retention (data : List DayRec) (top_n : Nat) (v : ℚ) :
    (sortByPctDesc data).filter (fun d => decide (rankKey d = v)) =
      data.filter (fun d => decide (rankKey d = v)) ∧
    (∃ m, ((rank_movements data top_n).1).filter
        (fun d => decide (rankKey d = v)) =
      (data.filter (fun d => decide (rankKey d = v))).take m) ∧
    (∃ m, ((rank_movements data top_n).2).filter
        (fun d => decide (rankKey d = v)) =
      ((data.filter (fun d => decide (rankKey d = v))).drop m).reverse) := by
  refine ⟨sortByPctDesc_filter_key data v, ?_, ?_⟩
  · refine ⟨(((sortByPctDesc data).take top_n).filter
      (fun d => decide (rankKey d = v))).length, ?_⟩
    have h := filter_take_eq (fun d => decide (rankKey d = v)) top_n
      (sortByPctDesc data)
    rw [sortByPctDesc_filter_key data v] at h
    exact h
  · simp only [rank_movements, List.filter_reverse]
    unfold sliceLast
    split
    · exact ⟨0, by rw [sortByPctDesc_filter_key data v, List.drop_zero]⟩
    · refine ⟨(((sortByPctDesc data).take
        ((sortByPctDesc data).length - top_n)).filter
          (fun d => decide (rankKey d = v))).length, ?_⟩
      have h := filter_drop_eq (fun d => decide (rankKey d = v))
        ((sortByPctDesc data).length - top_n) (sortByPctDesc data)
      rw [sortByPctDesc_filter_key data v] at h
      rw [h]

/-- Two distinct observations tied at percent change `-5`; the earlier
day first. -/
def c6A : DayRec :=
  { date := "2020-01-03", close := 19, adj_close := 19, volume := 10,
    daily_change := some (-1), daily_change_pct := some (-5) }

/-- The later of the two tied observations. -/
def c6B : DayRec :=
  { date := "2020-01-06", close := 18, adj_close := 18, volume := 20,
    daily_change := some (-1), daily_change_pct := some (-5) }

/-- Claim C6 as frozen is false: with two days tied at the same percent
change and `N = 1`, `top_gains` retains the chronologically earliest tied
day, but `top_losses` retains the chronologically *latest* one — the
last-`N` slice truncates the tied group from the back. -/
theorem C6_losses_tie_counterexample :
    rankKey c6A = rankKey c6B ∧ c6A ≠ c6B ∧
      (rank_movements [c6A, c6B] 1).1 = [c6A] ∧
      (rank_movements [c6A, c6B] 1).2 = [c6B] := by
  have hsort : sortByPctDesc [c6A, c6B] = [c6A, c6B] := by
    unfold sortByPctDesc
    rw [mergeSort_pair]
    rfl
  refine ⟨by decide, by decide, ?_, ?_⟩
  · simp [rank_movements, hsort]
  · simp [rank_movements, hsort, sliceLast]

/-! Statistics: extrema of the fold, and the first-occurrence search. -/

theorem foldl_max_mem {α : Type _} [LinearOrder α] (c : α) (cs : List α) :
    cs.foldl max c ∈ c :: cs := by
  induction cs generalizing c with
  | nil => simp
  | cons b bs ih =>
    rw [List.foldl_cons]
    rcases List.mem_cons.mp (ih (max c b)) with h | h
    · rw [h]
      rcases max_choice c b with hm | hm <;> simp [hm]
    · exact List.mem_cons_of_mem _ (List.mem_cons_of_mem _ h)

theorem le_foldl_max {α : Type _} [LinearOrder α] (c : α) (cs : List α) :
    ∀ x ∈ c :: cs, x ≤ cs.foldl max c := by
  induction cs generalizing c with
  | nil =>
    intro x hx
    simp only [List.mem_singleton] at hx
    simp [hx]
  | cons b bs ih =>
    intro x hx
    rw [List.foldl_cons]
    rcases List.mem_cons.mp hx with rfl | hx'
    · exact le_trans (le_max_left x b) (ih (max x b) _ (List.mem_cons_self _ _))
    · rcases List.mem_cons.mp hx' with rfl | hx''
      · exact le_trans (le_max_right c x)
          (ih (max c x) _ (List.mem_cons_self _ _))
      · exact ih (max c b) x (List.mem_cons_of_mem _ hx'')

theorem foldl_min_mem {α : Type _} [LinearOrder α] (c : α) (cs : List α) :
    cs.foldl min c ∈ c :: cs := by
  induction cs generalizing c with
  | nil => simp
  | cons b bs ih =>
    rw [List.foldl_cons]
    rcases List.mem_cons.mp (ih (min c b)) with h | h
    · rw [h]
      rcases min_choice c b with hm | hm <;> simp [hm]
    · exact List.mem_cons_of_mem _ (List.mem_cons_of_mem _ h)

theorem foldl_min_le {α : Type _} [LinearOrder α] (c : α) (cs : List α) :
    ∀ x ∈ c :: cs, cs.foldl min c ≤ x := by
  induction cs generalizing c with
  | nil =>
    intro x hx
    simp only [List.mem_singleton] at hx
    simp [hx]
  | cons b bs ih =>
    intro x hx
    rw [List.foldl_cons]
    rcases List.mem_cons.mp hx with rfl | hx'
    · exact le_trans (ih (min x b) _ (List.mem_cons_self _ _))
        (min_le_left x b)
    · rcases List.mem_cons.mp hx' with rfl | hx''
      · exact le_trans (ih (min c x) _ (List.mem_cons_self _ _))
          (min_le_right c x)
      · exact ih (min c b) x (List.mem_cons_of_mem _ hx'')

/-- `find?` returns the first match: it sits at an index before which the
predicate fails everywhere. -/
theorem find?_first_index {α : Type _} [Inhabited α] (p : α → Bool)
    (l : List α) (a : α) (h : l.find? p = some a) :
    ∃ k, k < l.length ∧ l.getD k default = a ∧ p a = true ∧
      ∀ j, j < k → p (l.getD j default) = false := by
  induction l with
  | nil => simp [List.find?] at h
  | cons x xs ih =>
    by_cases hx : p x
    · rw [List.find?_cons_of_pos _ hx] at h
      obtain rfl : x = a := by injection h
      exact ⟨0, by simp, rfl, hx, by omega⟩
    · rw [List.find?_cons_of_neg _ hx] at h
      obtain ⟨k, hk, hget, hpa, hbefore⟩ := ih h
      refine ⟨k + 1, by simpa using Nat.succ_lt_succ hk, by simpa using hget,
        hpa, ?_⟩
      intro j hj
      cases j with
      | zero => simpa using hx
      | succ m => simpa using hbefore m (by omega)

theorem find?_pct_isSome (data : List DayRec) (v : ℚ)
    (hv : v ∈ data.filterMap (·.daily_change_pct)) :
    ∃ d, data.find? (fun d => decide (d.daily_change_pct = some v)) =
      some d := by
  obtain ⟨a, ha, hav⟩ := List.mem_filterMap.mp hv
  have hs : (data.find?
      (fun d => decide (d.daily_change_pct = some v))).isSome :=
    List.find?_isSome.mpr ⟨a, ha, by simp [hav]⟩
  exact Option.isSome_iff_exists.mp hs

theorem filterMap_pct_ne_nil (data : List DayRec) (hne : data ≠ [])
    (hall : ∀ d ∈ data, d.daily_change_pct.isSome) :
    data.filterMap (·.daily_change_pct) ≠ [] := by
  obtain ⟨d0, rest, rfl⟩ := List.exists_cons_of_ne_nil hne
  obtain ⟨q, hq⟩ := Option.isSome_iff_exists.mp (hall d0 (by simp))
  intro h
  have hmem : q ∈ (d0 :: rest).filterMap (·.daily_change_pct) :=
    List.mem_filterMap.mpr ⟨d0, by simp, hq⟩
  rw [h] at hmem
  simp at hmem

/-- Closed form of `calculate_statistics` once the `changes` list and the
two first-occurrence searches are known. -/
theorem calculate_statistics_eq (data : List DayRec) (c : ℚ) (cs : List ℚ)
    (hc : data.filterMap (·.daily_change_pct) = c :: cs)
    (dg dl : DayRec)
    (hgd : data.find?
      (fun d => decide (d.daily_change_pct = some (cs.foldl max c))) =
        some dg)
    (hld : data.find?
      (fun d => decide (d.daily_change_pct = some (cs.foldl min c))) =
        some dl) :
    calculate_statistics data = some
      { max_gain_pct := cs.foldl max c, max_gain_date := dg.date,
        max_loss_pct := cs.foldl min c, max_loss_date := dl.date,
        avg_daily_change_pct := (c :: cs).sum / ((c :: cs).length : ℚ),
        variance := ((c :: cs).map
          (fun x => (x - (c :: cs).sum / ((c :: cs).length : ℚ)) ^ 2)).sum /
            ((c :: cs).length : ℚ),
        total_days := (c :: cs).length } := by
  unfold calculate_statistics
  rw [hc]
  simp [firstDateWith, hgd, hld]

/-- Claim C7, confirmed: on a nonempty return-observation sequence,
`calculate_statistics` sets `max_gain_pct` to the maximum percent change
and `max_loss_pct` to the minimum, and pairs each with the date of the
first record in sequence order attaining that extremum (`next(...)` over
`data`): there is an index `k` holding the extremum and carrying the
reported date, with no earlier index attaining it. -/
theorem C7_extrema_first_occurrence (data : List DayRec)
    (hne : data ≠ [])
    (hall : ∀ d ∈ data, d.daily_change_pct.isSome) :
    ∃ s, calculate_statistics data = some s ∧
      s.max_gain_pct ∈ data.filterMap (·.daily_change_pct) ∧
      (∀ x ∈ data.filterMap (·.daily_change_pct), x ≤ s.max_gain_pct) ∧
      s.max_loss_pct ∈ data.filterMap (·.daily_change_pct) ∧
      (∀ x ∈ data.filterMap (·.daily_change_pct), s.max_loss_pct ≤ x) ∧
      (∃ k, k < data.length ∧
        (data.getD k default).daily_change_pct = some s.max_gain_pct ∧
        (data.getD k default).date = s.max_gain_date ∧
        ∀ j, j < k →
          (data.getD j default).daily_change_pct ≠ some s.max_gain_pct) ∧
      (∃ k, k < data.length ∧
        (data.getD k default).daily_change_pct = some s.max_loss_pct ∧
        (data.getD k default).date = s.max_loss_date ∧
        ∀ j, j < k →
          (data.getD j default).daily_change_pct ≠ some s.max_loss_pct) := by
  obtain ⟨c, cs, hc⟩ :=
    List.exists_cons_of_ne_nil (filterMap_pct_ne_nil data hne hall)
  have hmg : cs.foldl max c ∈ data.filterMap (·.daily_change_pct) := by
    rw [hc]
    exact foldl_max_mem c cs
  have hml : cs.foldl min c ∈ data.filterMap (·.daily_change_pct) := by
    rw [hc]
    exact foldl_min_mem c cs
  obtain ⟨dg, hgd⟩ := find?_pct_isSome data _ hmg
  obtain ⟨dl, hld⟩ := find?_pct_isSome data _ hml
  refine ⟨_, calculate_statistics_eq data c cs hc dg dl hgd hld,
    hmg, ?_, hml, ?_, ?_, ?_⟩
  · intro x hx
    rw [hc] at hx
    exact le_foldl_max c cs x hx
  · intro x hx
    rw [hc] at hx
    exact foldl_min_le c cs x hx
  · obtain ⟨k, hk, hget, hpa, hbefore⟩ := find?_first_index _ data dg hgd
    refine ⟨k, hk, ?_, by rw [hget], ?_⟩
    · rw [hget]
      exact of_decide_eq_true hpa
    · intro j hj hcon
      have := hbefore j hj
      rw [hcon] at this
      simp at this
  · obtain ⟨k, hk, hget, hpa, hbefore⟩ := find?_first_index _ data dl hld
    refine ⟨k, hk, ?_, by rw [hget], ?_⟩
    · rw [hget]
      exact of_decide_eq_true hpa
    · intro j hj hcon
      have := hbefore j hj
      rw [hcon] at this
      simp at this

/-- Two concrete return observations with distinct percent changes. -/
def c7Data : List DayRec :=
  [{ date := "2020-01-03", close := 102, adj_close := 102, volume := 10,
     daily_change := some 2, daily_change_pct := some 2 },
   { date := "2020-01-06", close := 99, adj_close := 99, volume := 20,
     daily_change := some (-3), daily_change_pct := some (-3) }]

/-- Witness for `C7_extrema_first_occurrence` at the concrete input
`c7Data`. -/
theorem C7_extrema_first_occurrence_witness :
    ∃ s, calculate_statistics c7Data = some s ∧
      s.max_gain_pct ∈ c7Data.filterMap (·.daily_change_pct) ∧
      (∀ x ∈ c7Data.filterMap (·.daily_change_pct), x ≤ s.max_gain_pct) ∧
      s.max_loss_pct ∈ c7Data.filterMap (·.daily_change_pct) ∧
      (∀ x ∈ c7Data.filterMap (·.daily_change_pct), s.max_loss_pct ≤ x) ∧
      (∃ k, k < c7Data.length ∧
        (c7Data.getD k default).daily_change_pct = some s.max_gain_pct ∧
        (c7Data.getD k default).date = s.max_gain_date ∧
        ∀ j, j < k →
          (c7Data.getD j default).daily_change_pct ≠ some s.max_gain_pct) ∧
      (∃ k, k < c7Data.length ∧
        (c7Data.getD k default).daily_change_pct = some s.max_loss_pct ∧
        (c7Data.getD k default).date = s.max_loss_date ∧
        ∀ j, j < k →
          (c7Data.getD j default).daily_change_pct ≠ some s.max_loss_pct) :=
  C7_extrema_first_occurrence c7Data (by decide) (by decide)

/-! Pipeline-level facts: report assembly, empty input, determinism,
and the zero-standard-deviation sigma crash. -/

theorem calculate_statistics_isSome (data : List DayRec)
    (hne : data ≠ []) (hall : ∀ d ∈ data, d.daily_change_pct.isSome) :
    ∃ s, calculate_statistics data = some s := by
  obtain ⟨c, cs, hc⟩ :=
    List.exists_cons_of_ne_nil (filterMap_pct_ne_nil data hne hall)
  obtain ⟨dg, hgd⟩ := find?_pct_isSome data _
    (by rw [hc]; exact foldl_max_mem c cs)
  obtain ⟨dl, hld⟩ := find?_pct_isSome data _
    (by rw [hc]; exact foldl_min_mem c cs)
  exact ⟨_, calculate_statistics_eq data c cs hc dg dl hgd hld⟩

theorem getLast?_eq_getD {α : Type _} [Inhabited α] (l : List α)
    (hne : l ≠ []) :
    l.getLast? = some (l.getD (l.length - 1) default) := by
  obtain ⟨a, l', rfl⟩ := List.exists_cons_of_ne_nil hne
  rw [List.getLast?_eq_getElem?]
  rw [List.getElem?_eq_getElem (by simp)]
  rw [List.getD_eq_getElem?_getD, List.getElem?_eq_getElem (by simp)]
  rfl

/-- On a valid input of length at least 2 with nonzero non-final closes,
the pipeline writes a report whose period bounds are the dates of the
first and last records of the trimmed sequence, i.e. of the second and
last original rows. -/
theorem runPipeline_valid_report (r0 r1 : RawRow) (rest' : List RawRow)
    (top_n : Nat)
    (hv : ∀ r ∈ r0 :: r1 :: rest', r.validb = true)
    (hz : ∀ q ∈ ((r0 :: r1 :: rest').map RawRow.closeQ).dropLast, q ≠ 0) :
    ∃ rep, runPipeline (r0 :: r1 :: rest') top_n = .ok rep ∧
      rep.period_start = r1.dateS ∧
      rep.period_end =
        (((r1 :: rest').getLast?).map RawRow.dateS).getD "N/A" := by
  have hdata := process_data_chain r0 (r1 :: rest') hv hz
  have hall := chainFrom_pct_isSome r0.closeQ (r1 :: rest')
  have hne : chainFrom r0.closeQ (r1 :: rest') ≠ [] := by
    rw [chainFrom]
    exact List.cons_ne_nil _ _
  obtain ⟨stats, hstats⟩ := calculate_statistics_isSome _ hne hall
  have hempty : (chainFrom r0.closeQ (r1 :: rest')).isEmpty = false := by
    rw [chainFrom]
    rfl
  refine ⟨assembleReport (chainFrom r0.closeQ (r1 :: rest')) stats
      (rank_movements (chainFrom r0.closeQ (r1 :: rest')) top_n).1
      (rank_movements (chainFrom r0.closeQ (r1 :: rest')) top_n).2,
    ?_, ?_, ?_⟩
  · unfold runPipeline
    simp only [List.isEmpty_cons, hdata, hempty, hstats]
    rfl
  · unfold assembleReport
    rw [chainFrom]
    rfl
  · show ((((chainFrom r0.closeQ (r1 :: rest')).getLast?).map
        (·.date)).getD "N/A") = _
    have hmap : ((chainFrom r0.closeQ (r1 :: rest')).getLast?).map
        (·.date) = ((r1 :: rest').getLast?).map RawRow.dateS := by
      have h1 := List.getLast?_map (fun d : DayRec => d.date)
        (chainFrom r0.closeQ (r1 :: rest'))
      have h2 := List.getLast?_map RawRow.dateS (r1 :: rest')
      rw [← h1, ← h2, chainFrom_map_date]
    rw [hmap]

/-- Claim C4, amended: the report's `period_start` and `period_end` are
the first and last dates of the *trimmed* return sequence — equivalently
the dates of the second and the last rows of the original sequence — not
the first and last dates of the original sequence: `save_results` reads
`data[0]['date']` and `data[-1]['date']` from the `process_data` output,
whose first original row has been removed.  The correction to
`period_start` is forced by `C4_period_start_counterexample`; the
`period_end` clause of the original claim was right. -/
theorem C4_period_bounds_trimmed (rows : List RawRow) (top_n : Nat)
    (h2 : 2 ≤ rows.length)
    (hv : ∀ r ∈ rows, r.validb = true)
    (hz : ∀ q ∈ (rows.map RawRow.closeQ).dropLast, q ≠ 0) :
    ∃ rep, runPipeline rows top_n = .ok rep ∧
      rep.period_start = (rows.getD 1 default).dateS ∧
      rep.period_end = (rows.getD (rows.length - 1) default).dateS := by
  obtain ⟨r0, rest, rfl⟩ : ∃ r0 rest, rows = r0 :: rest := by
    cases rows with
    | nil => simp at h2
    | cons a l => exact ⟨a, l, rfl⟩
  obtain ⟨r1, rest', rfl⟩ : ∃ r1 rest', rest = r1 :: rest' := by
    cases rest with
    | nil => simp at h2
    | cons a l => exact ⟨a, l, rfl⟩
  obtain ⟨rep, hrun, hs, he⟩ :=
    runPipeline_valid_report r0 r1 rest' top_n hv hz
  refine ⟨rep, hrun, by rw [hs]; rfl, ?_⟩
  rw [he, getLast?_eq_getD (r1 :: rest') (List.cons_ne_nil _ _)]
  simp only [Option.map_some', Option.getD_some]
  have hlen : (r0 :: r1 :: rest').length - 1 = rest'.length + 1 := by
    simp
  rw [hlen, List.getD_cons_succ]
  have hlen2 : (r1 :: rest').length - 1 = rest'.length := by simp
  rw [hlen2]

/-- First row of the C4 example. -/
def c4R0 : RawRow :=
  { date := some "2020-01-02", close := some 10, adjClose := some 10,
    volume := some 1 }

/-- Second row of the C4 example. -/
def c4R1 : RawRow :=
  { date := some "2020-01-03", close := some 11, adjClose := some 11,
    volume := some 2 }

/-- Third row of the C4 example. -/
def c4R2 : RawRow :=
  { date := some "2020-01-06", close := some 12, adjClose := some 12,
    volume := some 3 }

/-- The three-row C4 example input. -/
def c4Rows : List RawRow := [c4R0, c4R1, c4R2]

/-- Claim C4 as frozen is false: on `c4Rows`, whose original first date is
`2020-01-02`, the emitted report has `period_start = 2020-01-03` — the
first date of the trimmed return sequence, not of the original
sequence. -/
theorem C4_period_start_counterexample :
    (runPipeline c4Rows 50).toOption.map Report.period_start =
        some "2020-01-03" ∧
      (c4Rows.getD 0 default).dateS = "2020-01-02" ∧
      "2020-01-03" ≠ "2020-01-02" := by
  obtain ⟨rep, hrun, hs, _⟩ :=
    runPipeline_valid_report c4R0 c4R1 [c4R2] 50 (by decide) (by decide)
  refine ⟨?_, rfl, by decide⟩
  rw [show c4Rows = c4R0 :: c4R1 :: [c4R2] from rfl, hrun]
  simp only [Except.toOption, Option.map_some', hs]
  rfl

/-- Witness for `C4_period_bounds_trimmed` at the concrete input
`c4Rows`. -/
theorem C4_period_bounds_trimmed_witness :
    ∃ rep, runPipeline c4Rows 50 = .ok rep ∧
      rep.period_start = (c4Rows.getD 1 default).dateS ∧
      rep.period_end = (c4Rows.getD (c4Rows.length - 1) default).dateS :=
  C4_period_bounds_trimmed c4Rows 50 (by decide) (by decide) (by decide)

/-- Claim C5, amended: `calculate_statistics` applied to a zero-element
sequence does not fail — it returns the empty dict (modelled `none`).
The run-halting behaviour lives in the caller instead: whenever the feed
is empty or trimming leaves no data, `main` stops with a failure
(`noRows` or `noValidData`) before `calculate_statistics` is ever
invoked, and no report of any kind is emitted. -/
theorem C5_empty_input_no_report (rows : List RawRow) (top_n : Nat)
    (h : rows = [] ∨ process_data rows = .ok []) :
    calculate_statistics [] = none ∧
      (runPipeline rows top_n = .error .noRows ∨
        runPipeline rows top_n = .error .noValidData) ∧
      ∀ rep, runPipeline rows top_n ≠ .ok rep := by
  have hrun : runPipeline rows top_n = .error .noRows ∨
      runPipeline rows top_n = .error .noValidData := by
    rcases h with rfl | hok
    · exact Or.inl rfl
    · cases rows with
      | nil => exact Or.inl rfl
      | cons a l =>
        refine Or.inr ?_
        unfold runPipeline
        simp only [List.isEmpty_cons, hok]
        rfl
  refine ⟨rfl, hrun, ?_⟩
  intro rep hok2
  rcases hrun with h' | h' <;> rw [h'] at hok2 <;>
    exact Except.noConfusion hok2

/-- Claim C5 as frozen is false: `calculate_statistics` on zero elements
does not raise any EmptyInput condition — the source returns the plain
empty dict `{}` (here `none`) and control continues normally in the
caller. -/
theorem C5_empty_stats_counterexample :
    calculate_statistics ([] : List DayRec) = none := rfl

/-- A single valid row: after trimming, the return sequence is empty. -/
def c5Row : RawRow :=
  { date := some "2020-01-02", close := some 10, adjClose := some 10,
    volume := some 1 }

/-- Witness for `C5_empty_input_no_report`: a single-row feed trims to an
empty return sequence and the pipeline stops with `noValidData`. -/
theorem C5_empty_input_no_report_witness :
    calculate_statistics [] = none ∧
      (runPipeline [c5Row] 50 = .error .noRows ∨
        runPipeline [c5Row] 50 = .error .noValidData) ∧
      ∀ rep, runPipeline [c5Row] 50 ≠ .ok rep :=
  C5_empty_input_no_report [c5Row] 50 (Or.inr rfl)

/-- The C9 example input. -/
def c9Rows : List RawRow :=
  [{ date := some "2020-01-02", close := some 10, adjClose := some 10,
     volume := some 100 },
   { date := some "2020-01-03", close := some 11, adjClose := some 11,
     volume := some 200 }]

/-- Claim C9, confirmed: the pipeline's report content (the embedding
excludes only `analysis_date`, the `datetime.now()` generation timestamp
that the spec itself excludes from equality) is a pure function of the
input rows: runs on identical inputs produce identical results, for both
the v2 pipeline and the REAL pipeline with its sigma stage.  Every stage
— coercion, return computation, stable sort, statistics, ranking, sigma
annotation, report assembly — consults nothing but its argument, so the
pipeline is deterministic and idempotent. -/
theorem C9_pipeline_deterministic (rows rows' : List RawRow)
    (top_n : Nat) (h : rows = rows') :
    runPipeline rows top_n = runPipeline rows' top_n ∧
      realRunPipeline rows top_n = realRunPipeline rows' top_n := by
  subst h
  exact ⟨rfl, rfl⟩

/-- Witness for `C9_pipeline_deterministic` at the concrete input
`c9Rows`. -/
theorem C9_pipeline_deterministic_witness :
    runPipeline c9Rows 50 = runPipeline c9Rows 50 ∧
      realRunPipeline c9Rows 50 = realRunPipeline c9Rows 50 :=
  C9_pipeline_deterministic c9Rows c9Rows 50 rfl

/-- The constant-price C3 input: three equal closes. -/
def c3Rows : List RawRow :=
  [{ date := some "2020-01-02", close := some 10, adjClose := some 10,
     volume := some 1 },
   { date := some "2020-01-03", close := some 10, adjClose := some 10,
     volume := some 2 },
   { date := some "2020-01-06", close := some 10, adjClose := some 10,
     volume := some 3 }]

/-- First return record of the constant-price run. -/
def c3RecA : DayRec :=
  { date := "2020-01-03", close := 10, adj_close := 10, volume := 2,
    daily_change := some 0, daily_change_pct := some 0 }

/-- Second return record of the constant-price run. -/
def c3RecB : DayRec :=
  { date := "2020-01-06", close := 10, adj_close := 10, volume := 3,
    daily_change := some 0, daily_change_pct := some 0 }

/-- Claim C3 identifies a code bug: on the constant-price input `c3Rows`
the percent changes are all `0`, so the standard deviation is `0`, and
the REAL variant's `calculate_sigma` performs an unguarded division —
the run aborts with an uncaught `ZeroDivisionError` at the top of
`save_results`, before anything is written.  No explicit "undefined"
marker exists anywhere in the code, and no report (with or without such
a marker) is produced: the code meets the "never a numeric value"
half of the claim only by crashing. -/
theorem C3_zero_std_dev_crash :
    realRunPipeline c3Rows 50 = .error (.pyErr .zeroDivisionError) ∧
      calculate_sigma 0 0 0 = .error .zeroDivisionError := by
  have hdata : process_data c3Rows = .ok [c3RecA, c3RecB] := by
    have h := process_data_chain
      { date := some "2020-01-02", close := some 10, adjClose := some 10,
        volume := some 1 }
      [{ date := some "2020-01-03", close := some 10, adjClose := some 10,
         volume := some 2 },
       { date := some "2020-01-06", close := some 10, adjClose := some 10,
         volume := some 3 }]
      (by decide) (by decide)
    rw [show c3Rows = _ :: _ from rfl, h]
    simp only [chainFrom, mkChangeRec, RawRow.dateS, RawRow.closeQ,
      c3RecA, c3RecB, Option.getD_some]
    norm_num
  have hstats : calculate_statistics [c3RecA, c3RecB] = some
      { max_gain_pct := 0, max_gain_date := "2020-01-03",
        max_loss_pct := 0, max_loss_date := "2020-01-03",
        avg_daily_change_pct := 0, variance := 0, total_days := 2 } := by
    unfold calculate_statistics
    simp only [c3RecA, c3RecB, List.filterMap]
    norm_num [firstDateWith, List.find?, c3RecA, c3RecB, List.foldl]
  have hsort : sortByPctDesc [c3RecA, c3RecB] = [c3RecA, c3RecB] := by
    unfold sortByPctDesc
    rw [mergeSort_pair]
    rfl
  have hrank : rank_movements [c3RecA, c3RecB] 50 =
      ([c3RecA, c3RecB], [c3RecB, c3RecA]) := by
    unfold rank_movements
    rw [hsort]
    rfl
  constructor
  · unfold realRunPipeline
    simp only [List.isEmpty_cons, hdata, hstats, hrank]
    rfl
  · rfl

end Silver
